import Mathlib

/-!
Shallow embedding of the cdf2cim attribute-parsing module
(src/cdf2cim/parser.py) and proofs about its specification claims.

Python dictionaries are modelled as insertion-ordered association lists
with string keys; Python exceptions are modelled with an `Except` result
type whose error constructors name the Python exception that the code
raises on that path.  Machine floats are idealised as rationals.
-/

set_option autoImplicit false

namespace Cdf2Cim

/-- Python exception kinds that the parser code can raise, plus
`unsupportedEra`, which names the explicit error condition that the
specification demands for an undetectable MIP era (no code path
produces it; it exists so that the claim can be stated). -/
inductive PErr where
  | unboundLocal
  | runtimeDictResize
  | attributeError
  | valueError
  | typeError
  | keyError
  | indexError
  | unsupportedEra
deriving DecidableEq, Repr

/-- Scalar or tuple values that can appear as netCDF global attributes or
as CIM2 property values.  Machine floats are idealised as rationals. -/
inductive PyVal where
  | str (s : String)
  | int (n : Int)
  | float (q : ℚ)
  | tupleStr (l : List String)
deriving DecidableEq, Repr

/-- Insertion-ordered association list: the model of a Python dict. -/
abbrev PyDict (α : Type) := List (String × α)

/-- CIM2 property sets and global-attribute views. -/
abbrev Props := PyDict PyVal

/-- Model of Python dict lookup `d.get(k)`: first entry with the key. -/
def pyGet {α : Type} : PyDict α → String → Option α
  | [], _ => none
  | kv :: rest, k => if kv.1 = k then some kv.2 else pyGet rest k

/-- Model of Python dict assignment `d[k] = v`: replace the value in
place when the key is present (keeping its position), else append. -/
def pyDictSet {α : Type} : PyDict α → String → α → PyDict α
  | [], k, v => [(k, v)]
  | kv :: rest, k, v => if kv.1 = k then (k, v) :: rest else kv :: pyDictSet rest k v

/-- Model of Python `d.update(kvs)`: assign each pair in order. -/
def pyDictUpdate {α : Type} (d : PyDict α) (kvs : List (String × α)) : PyDict α :=
  kvs.foldl (fun acc kv => pyDictSet acc kv.1 kv.2) d

/-- Model of a cf units object (spec section 9: units plus calendar as an
explicit value type).  `isreftime` records whether the units are
reference-time units ("days since ..."). -/
structure Units where
  spec : String
  calendar : Option String
  isreftime : Bool
deriving DecidableEq, Repr

/-- A concrete date-time value: a numeric offset interpreted under
reference-time units.  Models an element of a cf `dtarray`. -/
structure DateTime where
  units : Units
  offset : ℚ
deriving DecidableEq, Repr

/-- Model of the external cf conversion `cf.Data([v], units=u).dtarray[0]`:
interpret the offset `q` under the units `u`. -/
def dtOf (u : Units) (q : ℚ) : DateTime := ⟨u, q⟩

/-- Model of Python `str(x)` on a cf date-time object: a canonical
string rendering of the date-time value. -/
def dtStr (d : DateTime) : String :=
  toString d.offset ++ " " ++ d.units.spec

/-- Model of a 1-d cf dimension coordinate (TimeCoordinateView, spec
section 3): point values, optional per-element bounds, dimensionality,
optional calendar attribute and a units object. -/
structure TimeCoords where
  points : List ℚ
  bounds : Option (List (ℚ × ℚ))
  ndim : Nat
  calendar : Option String
  units : Units
deriving DecidableEq, Repr

/-- Model of a cf field: global attributes (`cf_field.properties()`), the
named reference-time axis (`cf_field.dim` of the T axis, absent when the
field has none) and the originating file path (`cf_field.fpath`). -/
structure CFField where
  attrs : Props
  timeCoord : Option TimeCoords
  fpath : String
deriving DecidableEq, Repr

/-! ### Character-level models of the Python string builtins used -/

/-- Digit run accumulator for the regex `\d+`: walks the characters,
collecting maximal runs of decimal digits in left-to-right order. -/
def digitRunsGo : List Char → List Char → List (List Char)
  | [], acc => if acc.isEmpty then [] else [acc.reverse]
  | c :: cs, acc =>
      if c.isDigit then digitRunsGo cs (c :: acc)
      else if acc.isEmpty then digitRunsGo cs []
      else acc.reverse :: digitRunsGo cs []

/-- Model of `re.findall` with pattern `\d+`: every maximal run of
decimal digits in the string, in left-to-right order. -/
def reFindallDigits (s : String) : List String :=
  (digitRunsGo s.data []).map List.asString

/-- Numeric value of a run of decimal digit characters. -/
def digitsToNat (cs : List Char) : Nat :=
  cs.foldl (fun a c => a * 10 + (c.toNat - 48)) 0

/-- Model of Python `s.replace("D", "")`: delete every capital D. -/
def stripD (s : String) : String :=
  (s.data.filter (fun c => c ≠ 'D')).asString

/-- Model of Python `s.split()` (no separator): split on runs of
whitespace, discarding empty chunks. -/
def pySplitGo : List Char → List Char → List String
  | [], acc => if acc.isEmpty then [] else [acc.reverse.asString]
  | c :: cs, acc =>
      if c.isWhitespace then
        if acc.isEmpty then pySplitGo cs [] else acc.reverse.asString :: pySplitGo cs []
      else pySplitGo cs (c :: acc)

/-- Model of Python `s.split()` (whitespace splitting). -/
def pySplit (s : String) : List String := pySplitGo s.data []

/-- Chunk splitter that keeps empty chunks, used to model Python
`s.split(sep)` and the decomposition of float literals. -/
def splitChunksGo (p : Char → Bool) : List Char → List Char → List (List Char)
  | [], acc => [acc.reverse]
  | c :: cs, acc =>
      if p c then acc.reverse :: splitChunksGo p cs []
      else splitChunksGo p cs (c :: acc)

/-- Split a character list at every character satisfying `p`, keeping
empty chunks (Python `s.split(sep)` behaviour). -/
def splitChunks (p : Char → Bool) (cs : List Char) : List (List Char) :=
  splitChunksGo p cs []

/-- Model of Python `s.split("/")`. -/
def pySplitSlash (s : String) : List String :=
  (splitChunks (fun c => c = '/') s.data).map List.asString

/-- Model of the Python string comparison on character lists: Python
compares strings lexicographically by Unicode code point. -/
def pyCharListLe : List Char → List Char → Bool
  | [], _ => true
  | _ :: _, [] => false
  | a :: as, b :: bs =>
      if a.toNat < b.toNat then true
      else if b.toNat < a.toNat then false
      else pyCharListLe as bs

/-- Model of the Python string order `a <= b` (code-point
lexicographic), the order used by the builtin `sorted`. -/
def pyStrLe (a b : String) : Bool := pyCharListLe a.data b.data

/-- First option when present, else the fallback; used to state dict
lookups after an update. -/
def optOr {α : Type} : Option α → Option α → Option α
  | some v, _ => some v
  | none, fb => fb

/-- Sign prefix of a numeric literal: returns (negative?, rest). -/
def signSplit : List Char → Bool × List Char
  | '-' :: r => (true, r)
  | '+' :: r => (false, r)
  | r => (false, r)

/-- Mantissa of a float literal: digits with an optional decimal point,
at least one digit overall.  Returns the digit string value and the
number of fractional digits. -/
def parseMantissa (cs : List Char) : Option (Nat × Nat) :=
  match splitChunks (fun c => c = '.') cs with
  | [ip] =>
      if ip ≠ [] ∧ ip.all Char.isDigit then some (digitsToNat ip, 0) else none
  | [ip, fp] =>
      if (ip ≠ [] ∨ fp ≠ []) ∧ ip.all Char.isDigit ∧ fp.all Char.isDigit then
        some (digitsToNat (ip ++ fp), fp.length)
      else none
  | _ => none

/-- Exact rational value of a decimal literal with sign, digit value,
fractional-digit count and decimal exponent:
(-1)^neg * digits * 10 ^ (ex - fracLen). -/
def ratOfParts (neg : Bool) (digits fracLen : Nat) (ex : Int) : ℚ :=
  let n : Int := if neg then -(digits : Int) else (digits : Int)
  let e : Int := ex - (fracLen : Int)
  if 0 ≤ e then mkRat (n * (10 : Int) ^ e.toNat) 1
  else mkRat n ((10 : Nat) ^ (-e).toNat)

/-- Model of the Python builtin `float(s)` on decimal literals
(optional sign, digits with optional decimal point, optional e/E
exponent); `none` models a ValueError.  Exact rational idealisation. -/
def pyFloatOfString (s : String) : Option ℚ :=
  match splitChunks (fun c => c = 'e' ∨ c = 'E') s.data with
  | [m] =>
      let sm := signSplit m
      (parseMantissa sm.2).map (fun dn => ratOfParts sm.1 dn.1 dn.2 0)
  | [m, e] =>
      let sm := signSplit m
      let se := signSplit e
      match parseMantissa sm.2,
            (if se.2 ≠ [] ∧ se.2.all Char.isDigit then some (digitsToNat se.2) else none) with
      | some dn, some en =>
          some (ratOfParts sm.1 dn.1 dn.2 (if se.1 then -(en : ℤ) else (en : ℤ)))
      | _, _ => none
  | _ => none

/-! ### The constants module (era literals and mapping tables)

The repository file `cdf2cim/constants.py` is not part of the sources
under verification, so its contents are modelled from the spec. -/

namespace constants

/-- Modelled from the spec: the constants module (absent from src/)
defines the CMIP6 era literal; spec section 4.1 gives the literal
"CMIP6". -/
def CMIP6 : String := "CMIP6"

/-- Modelled from the spec: the constants module (absent from src/)
defines the CMIP5 era literal; spec section 4.1 gives the literal
"CMIP5". -/
def CMIP5 : String := "CMIP5"

end constants

/-- Detected MIP era tag. -/
inductive MipEra where
  | cmip6
  | cmip5
deriving DecidableEq, Repr

/-- Embedding of `_get_mip_era`: CMIP6 when the `mip_era` attribute
equals the CMIP6 literal, else CMIP5 when `project_id` equals the CMIP5
literal, else the implicit Python `None`. -/
def _get_mip_era (ga : Props) : Option MipEra :=
  if pyGet ga "mip_era" = some (.str constants.CMIP6) then some .cmip6
  else if pyGet ga "project_id" = some (.str constants.CMIP5) then some .cmip5
  else none

/-- Embedding of `_get_calendar`: the calendar attribute of the time
coordinates, defaulting to gregorian (Python `getattr` with default,
which also covers an absent coordinate object). -/
def _get_calendar : Option TimeCoords → String
  | none => "gregorian"
  | some tc => tc.calendar.getD "gregorian"

/-- Embedding of `_get_field_start_end_dates`.  An absent axis, a
non-reference-time axis or a multi-dimensional axis gives no dates.
Otherwise the index set is 0 for a single point and first-and-last for
more; with bounds present the cf subspace `bounds[index]` flattens to
the two bounds of each selected element (so two values for a single
point, four for first-and-last), without bounds it is the selected
point values themselves.  Out-of-range subscripts model the Python
IndexError. -/
def _get_field_start_end_dates : Option TimeCoords → Except PErr (List DateTime)
  | none => .ok []
  | some tc =>
    if ¬ tc.units.isreftime = true ∨ 1 < tc.ndim then .ok []
    else
      match tc.bounds with
      | some bs =>
        if tc.points.length = 1 then
          match bs.head? with
          | some b => .ok [dtOf tc.units b.1, dtOf tc.units b.2]
          | none => .error .indexError
        else
          match bs.head?, bs.getLast? with
          | some b0, some bn =>
              .ok [dtOf tc.units b0.1, dtOf tc.units b0.2,
                   dtOf tc.units bn.1, dtOf tc.units bn.2]
          | _, _ => .error .indexError
      | none =>
        if tc.points.length = 1 then
          match tc.points.head? with
          | some p => .ok [dtOf tc.units p]
          | none => .error .indexError
        else
          match tc.points.head?, tc.points.getLast? with
          | some p0, some pn => .ok [dtOf tc.units p0, dtOf tc.units pn]
          | _, _ => .error .indexError

/-- The four CIM2 parent-run index property names, in zip order. -/
def parentIndexKeys : List String :=
  ["parent_realization_index", "parent_initialization_index",
   "parent_physics_index", "parent_forcing_index"]

/-- Embedding of the shared digit-extraction step of both enrichers:
`zip([four keys], map(int, re.findall(r"\d+", label)))`. -/
def parentIndexUpdate (s : String) : List (String × PyVal) :=
  parentIndexKeys.zip ((reFindallDigits s).map (fun r => PyVal.int (digitsToNat r.data)))

/-- Read a global attribute that the code feeds to `re.findall`,
with a default for an absent attribute; a non-string value makes
`re.findall` raise a TypeError. -/
def attrStrD (ga : Props) (k dflt : String) : Except PErr String :=
  match pyGet ga k with
  | none => .ok dflt
  | some (.str s) => .ok s
  | some _ => .error .typeError

/-- Embedding of the CMIP5 N/A pruning loop.  The Python code iterates
`cim2_properties.items()` and deletes matching entries from the dict it
is iterating; in CPython 3 the deletion makes the very next iterator
step (including the final exhausting one) raise
RuntimeError("dictionary changed size during iteration"), and the
propagating exception discards the mutated dict, so the observable
effect of finding an entry whose value is "N/A" is that error. -/
def pruneNAGo : List (String × PyVal) → Props → Except PErr Props
  | [], props => .ok props
  | kv :: rest, props =>
      if kv.2 = PyVal.str "N/A" then .error .runtimeDictResize
      else pruneNAGo rest props

/-- Embedding of lines 156-158 of the parser: drop attributes whose
value is "N/A" (see `pruneNAGo` for the iteration hazard). -/
def pruneNA (props : Props) : Except PErr Props :=
  pruneNAGo props props

/-- Embedding of `_parse_cmip5_properties`: prune "N/A" values, then
zip the digit groups of `parent_experiment_rip` (default "N/A") into
the four parent-index properties. -/
def _parse_cmip5_properties (props ga : Props) (_tc : Option TimeCoords) :
    Except PErr Props :=
  match pruneNA props with
  | .error e => .error e
  | .ok p1 =>
      match attrStrD ga "parent_experiment_rip" "N/A" with
      | .error e => .error e
      | .ok lbl => .ok (pyDictUpdate p1 (parentIndexUpdate lbl))

/-- Whether a units string is a reference-time units string: model of
the external cf library test (units of the form "x since y"). -/
def hasSince : List Char → Bool
  | [] => false
  | 's' :: 'i' :: 'n' :: 'c' :: 'e' :: _ => true
  | _ :: cs => hasSince cs

/-- Model of the external cf Units constructor `cf.Units(spec, cal)`. -/
def mkUnits (spec : String) (cal : Option String) : Units :=
  ⟨spec, cal, hasSince spec.data⟩

/-- Model of `re.match(r"(.*) *\((.*?)\)", s)`: the greedy first group
is everything before the last open parenthesis that is followed by a
close parenthesis, and the lazy second group runs from that open
parenthesis to the first close parenthesis after it. -/
def matchParenGo : List Char → Option (List Char × List Char)
  | [] => none
  | c :: rest =>
    match matchParenGo rest with
    | some g => some (c :: g.1, g.2)
    | none =>
        if c = '(' ∧ rest.contains ')' then
          some ([], rest.takeWhile (fun x => x ≠ ')'))
        else none

/-- String-level wrapper for `matchParenGo`. -/
def matchUnitsPattern (s : String) : Option (String × String) :=
  (matchParenGo s.data).map (fun g => (g.1.asString, g.2.asString))

/-- The units object of the time coordinates; accessing it on an absent
coordinate models the Python AttributeError on `None.Units`. -/
def unitsOf : Option TimeCoords → Except PErr Units
  | none => .error .attributeError
  | some tc => .ok tc.units

/-- Embedding of the `parent_time_units` resolution (lines 181-194):
absent or "no parent" uses the child units; a string matching the
description-parenthesised-calendar pattern builds units from the two
groups; any other string builds units from the raw string and the
already-stored calendar property; a non-string attribute makes
`re.match` raise a TypeError. -/
def resolveParentUnits (ga props : Props) (tc : Option TimeCoords) :
    Except PErr Units :=
  match pyGet ga "parent_time_units" with
  | none => unitsOf tc
  | some (.str s) =>
      if s = "no parent" then unitsOf tc
      else
        match matchUnitsPattern s with
        | some g => .ok (mkUnits g.1 (some g.2))
        | none =>
            match pyGet props "calendar" with
            | some (.str c) => .ok (mkUnits s (some c))
            | some _ => .error .typeError
            | none => .error .keyError
  | some _ => .error .typeError

/-- Embedding of the branch-time string coercion
`float(value.replace("D", ""))` shared by the two branch-time blocks. -/
def _coerce_branch_time (s : String) : Option ℚ :=
  pyFloatOfString (stripD s)

/-- Numeric coercion for `branch_time_in_parent` (lines 200-208): only
`str` values are coerced (the `isinstance(str, bytes)` guard); numbers
pass through to the cf conversion; a failed conversion is the Python
ValueError from `float`; a tuple makes the cf conversion fail. -/
def coerceBranchParent : PyVal → Except PErr ℚ
  | .str s =>
      match _coerce_branch_time s with
      | some q => .ok q
      | none => .error .valueError
  | .int n => .ok (n : ℚ)
  | .float q => .ok q
  | .tupleStr _ => .error .typeError

/-- Numeric coercion for `branch_time_in_child` (lines 218-226): the
guard is `not isinstance(value, float)`, so floats pass through but any
other non-string value (an int in particular) reaches
`value.replace("D", "")` and raises AttributeError. -/
def coerceBranchChild : PyVal → Except PErr ℚ
  | .float q => .ok q
  | .str s =>
      match _coerce_branch_time s with
      | some q => .ok q
      | none => .error .valueError
  | .int _ => .error .attributeError
  | .tupleStr _ => .error .attributeError

/-- Embedding of the `branch_time_in_parent` block: when the attribute
is present, coerce it, interpret it under the resolved parent units and
store the canonical string form. -/
def handleBranchParent (props ga : Props) (u : Units) : Except PErr Props :=
  match pyGet ga "branch_time_in_parent" with
  | none => .ok props
  | some v =>
      match coerceBranchParent v with
      | .error e => .error e
      | .ok q => .ok (pyDictSet props "branch_time_in_parent" (.str (dtStr (dtOf u q))))

/-- Embedding of the `branch_time_in_child` block: when the attribute
is present, coerce it, interpret it under the child time-coordinate
units and store the canonical string form. -/
def handleBranchChild (props ga : Props) (tc : Option TimeCoords) :
    Except PErr Props :=
  match pyGet ga "branch_time_in_child" with
  | none => .ok props
  | some v =>
      match coerceBranchChild v with
      | .error e => .error e
      | .ok q =>
          match unitsOf tc with
          | .error e => .error e
          | .ok u => .ok (pyDictSet props "branch_time_in_child" (.str (dtStr (dtOf u q))))

/-- Embedding of `tuple(sorted(activity_id.split()))`: sort the
whitespace tokens under the Python string order. -/
def activityTuple (s : String) : List String :=
  List.insertionSort (fun a b => pyStrLe a b = true) (pySplit s)

/-- Embedding of the `activity_id` block (lines 234-236): when present,
split on whitespace and store the sorted tuple; a non-string value has
no `split` method. -/
def handleActivity (props ga : Props) : Except PErr Props :=
  match pyGet ga "activity_id" with
  | none => .ok props
  | some (.str s) => .ok (pyDictSet props "activity_id" (.tupleStr (activityTuple s)))
  | some _ => .error .attributeError

/-- Embedding of `_parse_cmip6_properties`: parent-index digit zip from
`parent_variant_label` (default "none"), parent time-units resolution,
the two branch-time blocks, then the activity tag block. -/
def _parse_cmip6_properties (props ga : Props) (tc : Option TimeCoords) :
    Except PErr Props :=
  match attrStrD ga "parent_variant_label" "none" with
  | .error e => .error e
  | .ok lbl =>
    let p1 := pyDictUpdate props (parentIndexUpdate lbl)
    match resolveParentUnits ga p1 tc with
    | .error e => .error e
    | .ok u =>
      match handleBranchParent p1 ga u with
      | .error e => .error e
      | .ok p2 =>
          match handleBranchChild p2 ga tc with
          | .error e => .error e
          | .ok p3 => handleActivity p3 ga

/-- The volatile property names excluded from the identifier. -/
def volatileKeys : List String :=
  ["contact", "references", "forcing", "variant_info",
   "dataset_versions", "filenames"]

/-- Embedding of `_get_simulation_id`: the (key, value) pairs of the
property set whose key is not volatile, in the natural key order of the
mapping. -/
def _get_simulation_id (props : Props) : List (String × PyVal) :=
  props.filter (fun kv => decide (kv.1 ∉ volatileKeys))

/-- Embedding of lines 52-59: the effective time coordinates, absent
when the frequency attribute equals the fixed-field sentinel "fx". -/
def effTC (f : CFField) : Option TimeCoords :=
  if pyGet f.attrs "frequency" = some (.str "fx") then none else f.timeCoord

/-- Embedding of the dataset-version derivation
`cf_field.fpath.split("/")[-2]`; a path with fewer than two segments
models the Python IndexError. -/
def datasetVersion (fpath : String) : Except PErr PyVal :=
  let parts := pySplitSlash fpath
  if parts.length < 2 then .error .indexError
  else .ok (.str (parts.getD (parts.length - 2) ""))

/-- Embedding of the simple table-driven mapping loop (lines 84-86):
copy each present source attribute to its target property, in table
order. -/
def simpleMap (mapping : List (String × String)) (ga : Props) : Props :=
  mapping.foldl
    (fun acc fc =>
      match pyGet ga fc.1 with
      | some v => pyDictSet acc fc.2 v
      | none => acc) []

/-- The parse result triple: simulation identifier, CIM2 property set
and date range, each possibly the Python `None`. -/
abbrev ParseResult :=
  Option (List (String × PyVal)) × Option Props × Option (List DateTime)

/-- Embedding of the era dispatch of lines 103-108: run the enricher
matching the detected era. -/
def enrichForEra : MipEra → Props → Props → Option TimeCoords → Except PErr Props
  | .cmip6 => _parse_cmip6_properties
  | .cmip5 => _parse_cmip5_properties

/-- Embedding of `parse`.  The two simple-mapping tables live in the
constants module, which is absent from src/ and whose entries the spec
does not enumerate, so they are taken as parameters (`m5`, `m6`).  When
the detected era is neither CMIP6 nor CMIP5 the local `simple_mapping`
is never assigned and the `for` loop over it raises UnboundLocalError,
modelled by the `unboundLocal` error. -/
def parse (m5 m6 : List (String × String)) (f : CFField) :
    Except PErr ParseResult :=
  let ga := f.attrs
  let tc := effTC f
  match _get_field_start_end_dates tc with
  | .error e => .error e
  | .ok dates =>
    if dates.isEmpty then .ok (none, none, none)
    else
      match _get_mip_era ga with
      | none => .error .unboundLocal
      | some era =>
        let mapping := match era with | .cmip6 => m6 | .cmip5 => m5
        let props0 := simpleMap mapping ga
        match datasetVersion f.fpath with
        | .error e => .error e
        | .ok dv =>
          let props1 := pyDictSet props0 "dataset_versions" dv
          let props2 := pyDictSet props1 "filenames" (.str f.fpath)
          let props3 := pyDictSet props2 "calendar" (.str (_get_calendar tc))
          match enrichForEra era props3 ga tc with
          | .error e => .error e
          | .ok props4 =>
              .ok (some (_get_simulation_id props4), some props4, some dates)

/-! ### Concrete fixtures used by witnesses and counterexamples -/

/-- Reference-time units fixture. -/
def u0 : Units := ⟨"days since 1850-01-01", none, true⟩

/-- A two-point reference-time axis without bounds. -/
def tc0 : TimeCoords := ⟨[0, 1], none, 1, none, u0⟩

/-- A one-point reference-time axis with bounds. -/
def tcB1 : TimeCoords := ⟨[5], some [(0, 10)], 1, none, u0⟩

/-- A field with usable dates and no detectable MIP era. -/
def fEx : CFField := ⟨[], some tc0, "a/b/c.nc"⟩

/-- A CMIP6 field with usable dates. -/
def fOK : CFField := ⟨[("mip_era", .str "CMIP6")], some tc0, "a/v1/f.nc"⟩

/-- A fixed-frequency field. -/
def fFx : CFField := ⟨[("frequency", .str "fx")], some tc0, "a/v1/f.nc"⟩

/-! ### Association-list lemmas -/

theorem pyGet_set_self {α : Type} (d : PyDict α) (k : String) (v : α) :
    pyGet (pyDictSet d k v) k = some v := by
  induction d with
  | nil => simp [pyGet, pyDictSet]
  | cons kv rest ih =>
      by_cases h : kv.1 = k
      · simp [pyGet, pyDictSet, h]
      · simp [pyGet, pyDictSet, h, ih]

theorem pyGet_set_ne {α : Type} (d : PyDict α) (k k' : String) (v : α)
    (h : k' ≠ k) : pyGet (pyDictSet d k v) k' = pyGet d k' := by
  have h' : ¬ (k = k') := fun he => h he.symm
  induction d with
  | nil => simp [pyGet, pyDictSet, h']
  | cons kv rest ih =>
      by_cases hk : kv.1 = k
      · simp [pyGet, pyDictSet, hk, h']
      · simp [pyGet, pyDictSet, hk, ih]

theorem pyGet_update_ne {α : Type} (d : PyDict α) (kvs : List (String × α))
    (k : String) (h : ∀ kv ∈ kvs, kv.1 ≠ k) :
    pyGet (pyDictUpdate d kvs) k = pyGet d k := by
  induction kvs generalizing d with
  | nil => rfl
  | cons kv rest ih =>
      have hkv : kv.1 ≠ k := h kv (List.mem_cons_self _ _)
      have hrest : ∀ kv ∈ rest, kv.1 ≠ k := fun x hx => h x (List.mem_cons_of_mem _ hx)
      calc pyGet (pyDictUpdate d (kv :: rest)) k
          = pyGet (pyDictUpdate (pyDictSet d kv.1 kv.2) rest) k := rfl
        _ = pyGet (pyDictSet d kv.1 kv.2) k := ih _ hrest
        _ = pyGet d k := pyGet_set_ne _ _ _ _ (fun hh => hkv hh.symm)

theorem fst_mem_of_mem_zip {α : Type} (keys : List String) (vs : List α)
    (kv : String × α) (h : kv ∈ keys.zip vs) : kv.1 ∈ keys := by
  induction keys generalizing vs with
  | nil => simp [List.zip] at h
  | cons k0 kr ih =>
      cases vs with
      | nil => simp [List.zip] at h
      | cons v0 vr =>
          rcases List.mem_cons.mp h with h0 | h1
          · subst h0; exact List.mem_cons_self _ _
          · exact List.mem_cons_of_mem _ (ih vr h1)

theorem pyGet_update_zip {α : Type} (d : PyDict α) (keys : List String)
    (vs : List α) (hnd : keys.Nodup) (i : Nat) (k : String)
    (hk : keys[i]? = some k) :
    pyGet (pyDictUpdate d (keys.zip vs)) k = optOr vs[i]? (pyGet d k) := by
  induction keys generalizing d vs i with
  | nil => simp at hk
  | cons k0 kr ih =>
      rcases List.nodup_cons.mp hnd with ⟨hk0, hndr⟩
      cases i with
      | zero =>
          have hkk : k0 = k := by simpa using hk
          subst hkk
          cases vs with
          | nil => simp [pyDictUpdate, optOr]
          | cons v0 vr =>
              have hne : ∀ kv ∈ kr.zip vr, kv.1 ≠ k0 := by
                intro kv hkv he
                exact hk0 (he ▸ fst_mem_of_mem_zip kr vr kv hkv)
              show pyGet (pyDictUpdate (pyDictSet d k0 v0) (kr.zip vr)) k0 =
                optOr (v0 :: vr)[0]? (pyGet d k0)
              rw [pyGet_update_ne _ _ _ hne, pyGet_set_self]
              simp [optOr]
      | succ j =>
          have hkj : kr[j]? = some k := by simpa using hk
          have hkmem : k ∈ kr := List.getElem?_mem hkj
          have hkne : k ≠ k0 := fun he => hk0 (he ▸ hkmem)
          cases vs with
          | nil => simp [pyDictUpdate, optOr]
          | cons v0 vr =>
              show pyGet (pyDictUpdate (pyDictSet d k0 v0) (kr.zip vr)) k =
                optOr (v0 :: vr)[j + 1]? (pyGet d k)
              rw [ih _ _ hndr j hkj]
              simp only [List.getElem?_cons_succ]
              cases hv : vr[j]? with
              | some v => simp [optOr]
              | none => simp [optOr, pyGet_set_ne _ _ _ _ hkne]

theorem mem_of_pyGet_eq_some {α : Type} (d : PyDict α) (k : String) (v : α)
    (h : pyGet d k = some v) : (k, v) ∈ d := by
  induction d with
  | nil => simp [pyGet] at h
  | cons kv rest ih =>
      by_cases hk : kv.1 = k
      · subst hk
        simp [pyGet] at h
        simp [← h]
      · simp [pyGet, hk] at h
        exact List.mem_cons_of_mem _ (ih h)

/-! ### Simulation-identifier lemmas -/

theorem sid_set_volatile (p : Props) (k : String) (v : PyVal)
    (h : k ∈ volatileKeys) :
    _get_simulation_id (pyDictSet p k v) = _get_simulation_id p := by
  induction p with
  | nil => simp [_get_simulation_id, pyDictSet, h]
  | cons kv rest ih =>
      by_cases hk : kv.1 = k
      · have : (kv.1 ∈ volatileKeys) := hk ▸ h
        simp [_get_simulation_id, pyDictSet, hk, h, this]
      · by_cases hv : kv.1 ∈ volatileKeys
        · simpa [_get_simulation_id, pyDictSet, hk, hv] using ih
        · simpa [_get_simulation_id, pyDictSet, hk, hv] using ih

theorem sid_update_volatile (p : Props) (us : List (String × PyVal))
    (h : ∀ kv ∈ us, kv.1 ∈ volatileKeys) :
    _get_simulation_id (pyDictUpdate p us) = _get_simulation_id p := by
  induction us generalizing p with
  | nil => rfl
  | cons kv rest ih =>
      have h0 : kv.1 ∈ volatileKeys := h kv (List.mem_cons_self _ _)
      have hr : ∀ x ∈ rest, x.1 ∈ volatileKeys := fun x hx => h x (List.mem_cons_of_mem _ hx)
      calc _get_simulation_id (pyDictUpdate p (kv :: rest))
          = _get_simulation_id (pyDictUpdate (pyDictSet p kv.1 kv.2) rest) := rfl
        _ = _get_simulation_id (pyDictSet p kv.1 kv.2) := ih _ hr
        _ = _get_simulation_id p := sid_set_volatile _ _ _ h0

theorem mem_sid_iff (p : Props) (kv : String × PyVal) :
    kv ∈ _get_simulation_id p ↔ kv ∈ p ∧ kv.1 ∉ volatileKeys := by
  simp [_get_simulation_id, List.mem_filter]

theorem sid_sublist (p : Props) : List.Sublist (_get_simulation_id p) p :=
  List.filter_sublist p

/-! ### Enricher preservation lemmas -/

theorem pruneNAGo_ok (l : List (String × PyVal)) (p q : Props)
    (h : pruneNAGo l p = .ok q) : q = p := by
  induction l with
  | nil => simpa [pruneNAGo] using h.symm
  | cons kv rest ih =>
      by_cases hna : kv.2 = PyVal.str "N/A"
      · simp [pruneNAGo, hna] at h
      · exact ih (by simpa [pruneNAGo, hna] using h)

theorem parentIndexUpdate_keys (s : String) (kv : String × PyVal)
    (h : kv ∈ parentIndexUpdate s) : kv.1 ∈ parentIndexKeys :=
  fst_mem_of_mem_zip _ _ _ h

theorem pyGet_parentIndexUpdate_other (p : Props) (s : String) (k : String)
    (h : k ∉ parentIndexKeys) :
    pyGet (pyDictUpdate p (parentIndexUpdate s)) k = pyGet p k := by
  refine pyGet_update_ne _ _ _ ?_
  intro kv hkv he
  exact h (he ▸ parentIndexUpdate_keys s kv hkv)

theorem handleBranchParent_get (p q ga : Props) (u : Units) (k : String)
    (hk : k ≠ "branch_time_in_parent")
    (h : handleBranchParent p ga u = .ok q) : pyGet q k = pyGet p k := by
  unfold handleBranchParent at h
  cases hv : pyGet ga "branch_time_in_parent" with
  | none => rw [hv] at h; cases h; rfl
  | some v =>
      rw [hv] at h
      cases hc : coerceBranchParent v with
      | error e => simp [hc] at h
      | ok qv =>
          simp [hc] at h
          rw [← h]
          exact pyGet_set_ne _ _ _ _ hk

theorem handleBranchChild_get (p q ga : Props) (tc : Option TimeCoords)
    (k : String) (hk : k ≠ "branch_time_in_child")
    (h : handleBranchChild p ga tc = .ok q) : pyGet q k = pyGet p k := by
  unfold handleBranchChild at h
  cases hv : pyGet ga "branch_time_in_child" with
  | none => rw [hv] at h; cases h; rfl
  | some v =>
      rw [hv] at h
      cases hc : coerceBranchChild v with
      | error e => simp [hc] at h
      | ok qv =>
          cases hu : unitsOf tc with
          | error e => simp [hc, hu] at h
          | ok u =>
              simp [hc, hu] at h
              rw [← h]
              exact pyGet_set_ne _ _ _ _ hk

theorem handleActivity_get (p q ga : Props) (k : String)
    (hk : k ≠ "activity_id")
    (h : handleActivity p ga = .ok q) : pyGet q k = pyGet p k := by
  unfold handleActivity at h
  cases hv : pyGet ga "activity_id" with
  | none => rw [hv] at h; cases h; rfl
  | some v =>
      rw [hv] at h
      cases v with
      | str s =>
          simp at h
          rw [← h]
          exact pyGet_set_ne _ _ _ _ hk
      | int n => simp at h
      | float qq => simp at h
      | tupleStr l => simp at h

theorem cmip6_get_calendar (p q ga : Props) (tc : Option TimeCoords)
    (h : _parse_cmip6_properties p ga tc = .ok q) :
    pyGet q "calendar" = pyGet p "calendar" := by
  unfold _parse_cmip6_properties at h
  cases hl : attrStrD ga "parent_variant_label" "none" with
  | error e => simp [hl] at h
  | ok lbl =>
      simp only [hl] at h
      cases hu : resolveParentUnits ga (pyDictUpdate p (parentIndexUpdate lbl)) tc with
      | error e => simp [hu] at h
      | ok u =>
          simp only [hu] at h
          cases h2 : handleBranchParent (pyDictUpdate p (parentIndexUpdate lbl)) ga u with
          | error e => simp [h2] at h
          | ok p2 =>
              simp only [h2] at h
              cases h3 : handleBranchChild p2 ga tc with
              | error e => simp [h3] at h
              | ok p3 =>
                  simp only [h3] at h
                  calc pyGet q "calendar"
                      = pyGet p3 "calendar" := handleActivity_get _ _ _ _ (by decide) h
                    _ = pyGet p2 "calendar" := handleBranchChild_get _ _ _ _ _ (by decide) h3
                    _ = pyGet (pyDictUpdate p (parentIndexUpdate lbl)) "calendar" :=
                        handleBranchParent_get _ _ _ _ _ (by decide) h2
                    _ = pyGet p "calendar" :=
                        pyGet_parentIndexUpdate_other _ _ _ (by decide)

theorem cmip5_get_calendar (p q ga : Props) (tc : Option TimeCoords)
    (h : _parse_cmip5_properties p ga tc = .ok q) :
    pyGet q "calendar" = pyGet p "calendar" := by
  unfold _parse_cmip5_properties at h
  cases hp : pruneNA p with
  | error e => simp [hp] at h
  | ok p1 =>
      have hp1 : p1 = p := pruneNAGo_ok _ _ _ hp
      simp only [hp] at h
      cases hl : attrStrD ga "parent_experiment_rip" "N/A" with
      | error e => simp [hl] at h
      | ok lbl =>
          simp only [hl, Except.ok.injEq] at h
          rw [← h, hp1]
          exact pyGet_parentIndexUpdate_other _ _ _ (by decide)

theorem enrichForEra_get_calendar (era : MipEra) (p q ga : Props)
    (tc : Option TimeCoords) (h : enrichForEra era p ga tc = .ok q) :
    pyGet q "calendar" = pyGet p "calendar" := by
  cases era with
  | cmip6 => exact cmip6_get_calendar p q ga tc h
  | cmip5 => exact cmip5_get_calendar p q ga tc h

theorem getLast?_cons_eq {α : Type} (a : α) (l : List α) :
    (a :: l).getLast? = some (l.getLastD a) := by
  induction l generalizing a with
  | nil => rfl
  | cons b m ih => rw [List.getLast?_cons_cons, ih b, List.getLastD_cons]

/-! ### The Python string order is a decidable linear order -/

theorem char_eq_of_toNat_eq (a b : Char) (h : a.toNat = b.toNat) : a = b := by
  cases a
  cases b
  simp only [Char.toNat] at h
  congr 1
  exact UInt32.toNat.inj h

theorem pyCharListLe_total : ∀ a b : List Char,
    pyCharListLe a b = true ∨ pyCharListLe b a = true
  | [], _ => Or.inl rfl
  | _ :: _, [] => Or.inr rfl
  | a :: as, b :: bs => by
      simp only [pyCharListLe]
      rcases Nat.lt_trichotomy a.toNat b.toNat with h | h | h
      · left
        simp [h]
      · have h1 : ¬ a.toNat < b.toNat := by omega
        have h2 : ¬ b.toNat < a.toNat := by omega
        simp only [h1, h2, if_false]
        exact pyCharListLe_total as bs
      · right
        simp [h]

theorem pyCharListLe_trans : ∀ a b c : List Char, pyCharListLe a b = true →
    pyCharListLe b c = true → pyCharListLe a c = true
  | [], _, _, _, _ => rfl
  | _ :: _, [], _, h1, _ => by simp [pyCharListLe] at h1
  | _ :: _, _ :: _, [], _, h2 => by simp [pyCharListLe] at h2
  | a :: as, b :: bs, c :: cs, h1, h2 => by
      simp only [pyCharListLe] at h1 h2 ⊢
      by_cases hab : a.toNat < b.toNat
      · by_cases hbc : b.toNat < c.toNat
        · have hac : a.toNat < c.toNat := by omega
          simp [hac]
        · by_cases hcb : c.toNat < b.toNat
          · rw [if_neg hbc, if_pos hcb] at h2
            exact absurd h2 (by simp)
          · have hac : a.toNat < c.toNat := by omega
            simp [hac]
      · by_cases hba : b.toNat < a.toNat
        · rw [if_neg hab, if_pos hba] at h1
          exact absurd h1 (by simp)
        · rw [if_neg hab, if_neg hba] at h1
          by_cases hbc : b.toNat < c.toNat
          · have hac : a.toNat < c.toNat := by omega
            simp [hac]
          · by_cases hcb : c.toNat < b.toNat
            · rw [if_neg hbc, if_pos hcb] at h2
              exact absurd h2 (by simp)
            · rw [if_neg hbc, if_neg hcb] at h2
              have hac1 : ¬ a.toNat < c.toNat := by omega
              have hac2 : ¬ c.toNat < a.toNat := by omega
              rw [if_neg hac1, if_neg hac2]
              exact pyCharListLe_trans as bs cs h1 h2

theorem pyCharListLe_antisymm : ∀ a b : List Char, pyCharListLe a b = true →
    pyCharListLe b a = true → a = b
  | [], [], _, _ => rfl
  | [], _ :: _, _, h2 => by simp [pyCharListLe] at h2
  | _ :: _, [], h1, _ => by simp [pyCharListLe] at h1
  | a :: as, b :: bs, h1, h2 => by
      simp only [pyCharListLe] at h1 h2
      by_cases hab : a.toNat < b.toNat
      · rw [if_neg (by omega), if_pos hab] at h2
        exact absurd h2 (by simp)
      · by_cases hba : b.toNat < a.toNat
        · rw [if_neg hab, if_pos hba] at h1
          exact absurd h1 (by simp)
        · have heq : a = b := char_eq_of_toNat_eq a b (by omega)
          rw [if_neg hab, if_neg hba] at h1
          rw [if_neg hba, if_neg hab] at h2
          rw [heq, pyCharListLe_antisymm as bs h1 h2]

theorem pyStrLe_total (a b : String) :
    pyStrLe a b = true ∨ pyStrLe b a = true :=
  pyCharListLe_total a.data b.data

theorem pyStrLe_trans (a b c : String) (h1 : pyStrLe a b = true)
    (h2 : pyStrLe b c = true) : pyStrLe a c = true :=
  pyCharListLe_trans a.data b.data c.data h1 h2

theorem pyStrLe_antisymm (a b : String) (h1 : pyStrLe a b = true)
    (h2 : pyStrLe b a = true) : a = b := by
  cases a
  cases b
  congr 1
  exact pyCharListLe_antisymm _ _ h1 h2

/-! ### Claim theorems -/

/-- C1: the claim says the textual `branch_time_in_child` value "1.5D2"
is coerced to 150.0.  The code deletes the D marker instead of treating
it as an exponent, so `float("1.5D2".replace("D", ""))` parses "1.52"
and yields 1.52 (= 38/25), not 150.0; the date-time stored by the CMIP6
enricher is the one for offset 1.52 under the child units. -/
theorem branch_time_1_5D2_coerces_to_1_52 :
    _coerce_branch_time "1.5D2" = some (38 / 25 : ℚ) ∧
    (38 / 25 : ℚ) ≠ 150 ∧
    _parse_cmip6_properties [("calendar", PyVal.str "gregorian")]
        [("branch_time_in_child", PyVal.str "1.5D2")] (some tc0) =
      .ok [("calendar", PyVal.str "gregorian"),
           ("branch_time_in_child",
            PyVal.str (dtStr (dtOf tc0.units (38 / 25 : ℚ))))] := by
  have hq : (38 / 25 : ℚ) = mkRat 152 100 := by
    norm_num [Rat.mkRat_eq_divInt, Rat.divInt_eq_div]
  refine ⟨by rw [hq]; rfl, by norm_num, by rw [hq]; rfl⟩

/-- C3: the claim says every property whose value is "N/A" is pruned
from the final CMIP5 property set.  The code deletes from the dict
while iterating it, so in Python 3 any "N/A" entry makes the loop raise
RuntimeError instead; a set without "N/A" values passes through
unchanged. -/
theorem cmip5_na_prune_raises_runtime_error :
    _parse_cmip5_properties [("forcing", PyVal.str "N/A")] [] none =
      .error .runtimeDictResize ∧
    _parse_cmip5_properties [("forcing", PyVal.str "CO2")] [] none =
      .ok [("forcing", PyVal.str "CO2")] := by
  exact ⟨rfl, rfl⟩

/-- C5: the claim says an integer `branch_time_in_child` gets the same
numeric coercion as a textual one.  The guard is
`not isinstance(value, float)`, so an integer value reaches
`value.replace("D", "")` and raises AttributeError, while a float value
is stored; the parent branch, by contrast, guards on `isinstance(str)`
and accepts integers. -/
theorem branch_time_child_int_raises :
    _parse_cmip6_properties [("calendar", PyVal.str "gregorian")]
        [("branch_time_in_child", PyVal.int 150)] (some tc0) =
      .error .attributeError ∧
    _parse_cmip6_properties [("calendar", PyVal.str "gregorian")]
        [("branch_time_in_child", PyVal.float 150)] (some tc0) =
      .ok [("calendar", PyVal.str "gregorian"),
           ("branch_time_in_child", PyVal.str (dtStr (dtOf tc0.units 150)))] ∧
    _parse_cmip6_properties [("calendar", PyVal.str "gregorian")]
        [("branch_time_in_parent", PyVal.int 150)] (some tc0) =
      .ok [("calendar", PyVal.str "gregorian"),
           ("branch_time_in_parent", PyVal.str (dtStr (dtOf tc0.units 150)))] := by
  refine ⟨rfl, rfl, rfl⟩

/-- C2 counterexample: a field with usable dates whose attributes leave
the MIP era undetectable makes `parse` fail with the UnboundLocalError
of the unassigned simple-mapping variable, not with an explicit
unsupported-era condition. -/
theorem unknown_era_raises_unbound_local :
    parse [] [] fEx = .error .unboundLocal ∧
    parse [] [] fEx ≠ .error .unsupportedEra := by
  have h : parse [] [] fEx = .error .unboundLocal := rfl
  exact ⟨h, by rw [h]; simp⟩

/-- C4 counterexample: a usable one-element reference-time axis that
carries bounds yields a date range of length 2 (the two bounds of its
single element), not length 1 as claimed. -/
theorem single_point_with_bounds_gives_two_dates :
    _get_field_start_end_dates (some tcB1) = .ok [dtOf u0 0, dtOf u0 10] ∧
    [dtOf u0 0, dtOf u0 10].length ≠ 1 := by
  refine ⟨rfl, by simp⟩

/-- C2 (amended): for every field with usable dates whose global
attributes make the MIP era undetectable, `parse` fails fast — but with
the UnboundLocalError arising from the never-assigned simple-mapping
variable, not with an explicit unsupported-era condition; no empty or
garbage property set is produced. -/
theorem unknown_era_fails_fast (m5 m6 : List (String × String)) (f : CFField)
    (ds : List DateTime)
    (hd : _get_field_start_end_dates (effTC f) = .ok ds) (hne : ds ≠ [])
    (hera : _get_mip_era f.attrs = none) :
    parse m5 m6 f = .error .unboundLocal := by
  have hie : ds.isEmpty = false := by
    cases ds with
    | nil => exact absurd rfl hne
    | cons a l => rfl
  simp [parse, hd, hie, hera]

/-- C2 witness: a field with two usable time points and no era
attributes hits the unbound-local failure. -/
theorem unknown_era_fails_fast_witness :
    parse [] [] fEx = .error .unboundLocal :=
  unknown_era_fails_fast [] [] fEx [dtOf u0 0, dtOf u0 1] rfl (by simp) rfl

/-- C4 (amended): for a usable reference-time axis, only the first and
last elements contribute to the date range, but its length is 1 or 2
only without bounds (single point, or first and last points); with
bounds the range holds the two bounds of the single element (length 2),
or both bounds of the first and of the last element (length 4). -/
theorem date_range_first_last_shape (tc : TimeCoords)
    (h1 : tc.units.isreftime = true) (h2 : tc.ndim ≤ 1) :
    (∀ p0 ps, tc.points = p0 :: ps → tc.bounds = none →
       _get_field_start_end_dates (some tc) =
         .ok (if ps = [] then [dtOf tc.units p0]
              else [dtOf tc.units p0, dtOf tc.units (ps.getLastD p0)])) ∧
    (∀ p0 ps b0 bs, tc.points = p0 :: ps → tc.bounds = some (b0 :: bs) →
       _get_field_start_end_dates (some tc) =
         .ok (if ps = [] then [dtOf tc.units b0.1, dtOf tc.units b0.2]
              else [dtOf tc.units b0.1, dtOf tc.units b0.2,
                    dtOf tc.units (bs.getLastD b0).1,
                    dtOf tc.units (bs.getLastD b0).2])) := by
  constructor
  · intro p0 ps hp hb
    by_cases hps : ps = []
    · subst hps
      simp [_get_field_start_end_dates, h1, h2, hb, hp]
    · have hlen : ¬ tc.points.length = 1 := by
        rw [hp]
        simp only [List.length_cons]
        intro hz
        have hz0 : ps.length = 0 := by omega
        exact hps (List.length_eq_zero.mp hz0)
      simp [_get_field_start_end_dates, h1, h2, hb, hp, hlen, hps,
            getLast?_cons_eq]
  · intro p0 ps b0 bs hp hb
    by_cases hps : ps = []
    · subst hps
      simp [_get_field_start_end_dates, h1, h2, hb, hp]
    · have hlen : ¬ tc.points.length = 1 := by
        rw [hp]
        simp only [List.length_cons]
        intro hz
        have hz0 : ps.length = 0 := by omega
        exact hps (List.length_eq_zero.mp hz0)
      simp [_get_field_start_end_dates, h1, h2, hb, hp, hlen, hps,
            getLast?_cons_eq]

/-- C4 witness: the two-point axis without bounds yields the first and
last point values. -/
theorem date_range_first_last_shape_witness :
    _get_field_start_end_dates (some tc0) = .ok [dtOf u0 0, dtOf u0 1] := by
  have h := (date_range_first_last_shape tc0 rfl (by decide)).1 0 [1] rfl rfl
  simpa using h

/-- C6: updating only volatile keys (contact, references, forcing,
variant_info, dataset_versions, filenames) leaves the simulation
identifier unchanged; the identifier holds exactly the (key, value)
pairs of every non-volatile entry; and it lists them in the property
mapping's own key order (a sublist), so the order is reproducible for
fixed property-set content. -/
theorem simulation_id_excludes_volatile :
    (∀ (p : Props) (us : List (String × PyVal)),
        (∀ kv ∈ us, kv.1 ∈ volatileKeys) →
        _get_simulation_id (pyDictUpdate p us) = _get_simulation_id p) ∧
    (∀ (p : Props) (kv : String × PyVal),
        kv ∈ _get_simulation_id p ↔ kv ∈ p ∧ kv.1 ∉ volatileKeys) ∧
    (∀ p : Props, List.Sublist (_get_simulation_id p) p) :=
  ⟨sid_update_volatile, mem_sid_iff, sid_sublist⟩

/-- C6 witness: overwriting contact and adding filenames leaves the
identifier of a property set unchanged. -/
theorem simulation_id_excludes_volatile_witness :
    _get_simulation_id (pyDictUpdate
        [("calendar", PyVal.str "gregorian"), ("contact", PyVal.str "a")]
        [("contact", PyVal.str "b"), ("filenames", PyVal.str "x.nc")]) =
      _get_simulation_id
        [("calendar", PyVal.str "gregorian"), ("contact", PyVal.str "a")] :=
  simulation_id_excludes_volatile.1 _ _ (by decide)

/-- C7: a field whose frequency attribute is the fixed-field sentinel
"fx", or whose time coordinate resolves to no usable dates, makes
`parse` return the all-none triple without error; otherwise, whenever
`parse` returns normally, all three components are populated. -/
theorem parse_output_contract (m5 m6 : List (String × String)) (f : CFField) :
    ((pyGet f.attrs "frequency" = some (.str "fx") ∨
      _get_field_start_end_dates (effTC f) = .ok []) →
        parse m5 m6 f = .ok (none, none, none)) ∧
    (∀ ds, _get_field_start_end_dates (effTC f) = .ok ds → ds ≠ [] →
        ∀ i p d, parse m5 m6 f = .ok (i, p, d) →
          i.isSome = true ∧ p.isSome = true ∧ d.isSome = true) := by
  constructor
  · intro h
    rcases h with hfx | hres
    · have htc : effTC f = none := by simp [effTC, hfx]
      simp [parse, htc, _get_field_start_end_dates]
    · simp [parse, hres]
  · intro ds hds hne i p d hok
    have hie : ds.isEmpty = false := by
      cases ds with
      | nil => exact absurd rfl hne
      | cons a l => rfl
    simp only [parse, hds, hie] at hok
    rw [if_neg (by simp)] at hok
    split at hok
    · exact absurd hok (by simp)
    · split at hok
      · exact absurd hok (by simp)
      · split at hok
        · exact absurd hok (by simp)
        · simp only [Except.ok.injEq, Prod.mk.injEq] at hok
          obtain ⟨hi, hp, hd⟩ := hok
          subst hi
          subst hp
          subst hd
          exact ⟨rfl, rfl, rfl⟩

/-- C7 witness: the fixed-frequency field gives the all-none triple. -/
theorem parse_output_contract_witness :
    parse [] [] fFx = .ok (none, none, none) :=
  (parse_output_contract [] [] fFx).1 (Or.inl rfl)

/-- C8: both enrichers zip the maximal decimal digit runs of the
parent-run label, in left-to-right order and cast to integers, into the
four parent-index properties positionally; digit groups beyond the
fourth key are dropped and missing trailing groups leave the
corresponding key untouched (so unset when not previously present).
The label "r1i2p3" yields indices 1, 2, 3 and no forcing index, both
for CMIP5 (parent_experiment_rip) and CMIP6 (parent_variant_label). -/
theorem parent_index_digit_zip :
    (∀ (s : String) (props : Props) (i : Nat) (k : String),
        parentIndexKeys[i]? = some k →
        pyGet (pyDictUpdate props (parentIndexUpdate s)) k =
          optOr ((reFindallDigits s).map
              (fun r => PyVal.int (digitsToNat r.data)))[i]? (pyGet props k)) ∧
    reFindallDigits "r1i2p3" = ["1", "2", "3"] ∧
    _parse_cmip5_properties [] [("parent_experiment_rip", PyVal.str "r1i2p3")]
        none =
      .ok [("parent_realization_index", PyVal.int 1),
           ("parent_initialization_index", PyVal.int 2),
           ("parent_physics_index", PyVal.int 3)] ∧
    _parse_cmip6_properties [("calendar", PyVal.str "gregorian")]
        [("parent_variant_label", PyVal.str "r1i2p3")] (some tc0) =
      .ok [("calendar", PyVal.str "gregorian"),
           ("parent_realization_index", PyVal.int 1),
           ("parent_initialization_index", PyVal.int 2),
           ("parent_physics_index", PyVal.int 3)] := by
  refine ⟨?_, rfl, rfl, rfl⟩
  intro s props i k hk
  simpa [parentIndexUpdate] using
    pyGet_update_zip props parentIndexKeys
      ((reFindallDigits s).map (fun r => PyVal.int (digitsToNat r.data)))
      (by decide) i k hk

/-- C8 witness: the first parent-index key receives the first digit
group. -/
theorem parent_index_digit_zip_witness :
    pyGet (pyDictUpdate [] (parentIndexUpdate "r1i2p3"))
        "parent_realization_index" = some (PyVal.int 1) := by
  have h := parent_index_digit_zip.1 "r1i2p3" [] 0
    "parent_realization_index" (by decide)
  have h2 : ((reFindallDigits "r1i2p3").map
      (fun r => PyVal.int (digitsToNat r.data)))[0]? = some (PyVal.int 1) := rfl
  rw [h2] at h
  exact h

/-- C9: a present activity_id is split on whitespace and stored as the
sorted tuple of its tokens: the stored tuple is a sorted permutation of
the split, and any two labels whose token multisets agree normalize to
the identical tuple; "ScenarioMIP CMIP" and "CMIP ScenarioMIP" both
yield the tuple of "CMIP" then "ScenarioMIP". -/
theorem activity_id_sorted_normalization :
    (∀ s t : String, (pySplit s).Perm (pySplit t) →
        activityTuple s = activityTuple t) ∧
    (∀ s : String, (activityTuple s).Perm (pySplit s) ∧
        List.Sorted (fun a b => pyStrLe a b = true) (activityTuple s)) ∧
    _parse_cmip6_properties [("calendar", PyVal.str "gregorian")]
        [("activity_id", PyVal.str "ScenarioMIP CMIP")] (some tc0) =
      .ok [("calendar", PyVal.str "gregorian"),
           ("activity_id", PyVal.tupleStr ["CMIP", "ScenarioMIP"])] ∧
    _parse_cmip6_properties [("calendar", PyVal.str "gregorian")]
        [("activity_id", PyVal.str "CMIP ScenarioMIP")] (some tc0) =
      .ok [("calendar", PyVal.str "gregorian"),
           ("activity_id", PyVal.tupleStr ["CMIP", "ScenarioMIP"])] := by
  haveI : IsTotal String (fun a b => pyStrLe a b = true) := ⟨pyStrLe_total⟩
  haveI : IsTrans String (fun a b => pyStrLe a b = true) := ⟨pyStrLe_trans⟩
  haveI : IsAntisymm String (fun a b => pyStrLe a b = true) := ⟨pyStrLe_antisymm⟩
  refine ⟨?_, ?_, rfl, rfl⟩
  · intro s t hperm
    have hs := List.perm_insertionSort
      (fun a b : String => pyStrLe a b = true) (pySplit s)
    have ht := List.perm_insertionSort
      (fun a b : String => pyStrLe a b = true) (pySplit t)
    exact List.eq_of_perm_of_sorted
      (hs.trans (hperm.trans ht.symm))
      (List.sorted_insertionSort _ _)
      (List.sorted_insertionSort _ _)
  · intro s
    exact ⟨List.perm_insertionSort _ _, List.sorted_insertionSort _ _⟩

/-- C9 witness: the two token orders normalize identically. -/
theorem activity_id_sorted_normalization_witness :
    activityTuple "ScenarioMIP CMIP" = activityTuple "CMIP ScenarioMIP" :=
  activity_id_sorted_normalization.1 _ _ (by decide)

/-- C10: whenever `parse` returns a populated result, the property set
holds the calendar key with the resolved calendar (gregorian default),
and since calendar is not volatile the simulation identifier tuple is
non-empty, so the orchestrator's truthiness filter keeps the field. -/
theorem parse_sets_calendar_nonempty_id (m5 m6 : List (String × String))
    (f : CFField) (idt : List (String × PyVal)) (props : Props)
    (ds : List DateTime)
    (h : parse m5 m6 f = .ok (some idt, some props, some ds)) :
    pyGet props "calendar" = some (.str (_get_calendar (effTC f))) ∧
    idt ≠ [] := by
  cases hdates : _get_field_start_end_dates (effTC f) with
  | error e =>
      simp only [parse, hdates] at h
      exact absurd h (by simp)
  | ok dsr =>
      cases hie : dsr.isEmpty with
      | true =>
          simp only [parse, hdates, hie, if_true] at h
          exact absurd h (by simp)
      | false =>
          simp only [parse, hdates, hie, Bool.false_eq_true, if_false] at h
          cases hera : _get_mip_era f.attrs with
          | none =>
              simp only [hera] at h
              exact absurd h (by simp)
          | some era =>
              simp only [hera] at h
              cases hdv : datasetVersion f.fpath with
              | error e =>
                  simp only [hdv] at h
                  exact absurd h (by simp)
              | ok dv =>
                  simp only [hdv] at h
                  split at h
                  · exact absurd h (by simp)
                  · rename_i props4 henr
                    simp only [Except.ok.injEq, Prod.mk.injEq,
                      Option.some.injEq] at h
                    obtain ⟨hi, hp, hd⟩ := h
                    have hcal : pyGet props4 "calendar" =
                        some (.str (_get_calendar (effTC f))) := by
                      rw [enrichForEra_get_calendar _ _ _ _ _ henr,
                          pyGet_set_self]
                    constructor
                    · rw [← hp]
                      exact hcal
                    · rw [← hi]
                      intro hnil
                      have hmem : ("calendar",
                          PyVal.str (_get_calendar (effTC f))) ∈ props4 :=
                        mem_of_pyGet_eq_some _ _ _ hcal
                      have hin : ("calendar",
                          PyVal.str (_get_calendar (effTC f))) ∈
                          _get_simulation_id props4 :=
                        (mem_sid_iff _ _).mpr
                          ⟨hmem, show ("calendar" : String) ∉ volatileKeys by decide⟩
                      rw [hnil] at hin
                      exact absurd hin (List.not_mem_nil _)

/-- C10 witness: a successful CMIP6 parse stores the gregorian default
calendar and yields a non-empty identifier. -/
theorem parse_sets_calendar_nonempty_id_witness :
    pyGet [("dataset_versions", PyVal.str "v1"),
           ("filenames", PyVal.str "a/v1/f.nc"),
           ("calendar", PyVal.str "gregorian")] "calendar" =
      some (PyVal.str (_get_calendar (effTC fOK))) ∧
    ([("calendar", PyVal.str "gregorian")] : List (String × PyVal)) ≠ [] :=
  parse_sets_calendar_nonempty_id [] [] fOK
    [("calendar", PyVal.str "gregorian")]
    [("dataset_versions", PyVal.str "v1"),
     ("filenames", PyVal.str "a/v1/f.nc"),
     ("calendar", PyVal.str "gregorian")]
    [dtOf u0 0, dtOf u0 1] rfl

end Cdf2Cim
